import Mathlib

/-!
Verification of the Component Model variant-layout and value-container layer
of wasm-tools-go, together with the WIT pretty-printer helper `unwrap`.

The `cm` package implementation itself is not part of the visible corpus;
only its test file (`TestVariantLayout`, `TestGetBoundsCheck`,
`TestNewVariantBoundsCheck`) is.  The layout calculator and the variant
value container are therefore modelled from the specification (sections
4.1-4.3) and cross-checked against the expectations recorded in the visible
test matrix.  The pretty-printer helper `unwrap` is visible source and is
embedded directly.
-/

/-- Modelled from the spec: `roundUp(x, a) = ((x + a - 1) / a) * a`
(section 4.1 algorithm; the `cm` package source is absent from the corpus). -/
def roundUp (x a : Nat) : Nat := ((x + a - 1) / a) * a

/-- Maximum of a list of naturals, 0 for the empty list. -/
def listMax : List Nat → Nat
  | [] => 0
  | x :: xs => Nat.max x (listMax xs)

/-- Sequence maximum with an explicit default for the empty sequence,
the spec's `max(...) or d` operator. -/
def maxOr (l : List Nat) (d : Nat) : Nat :=
  match l with
  | [] => d
  | _ :: _ => listMax l

/-- A computed variant layout: overall alignment, payload data offset and
total size, all in bytes. -/
structure Layout where
  alignment : Nat
  dataOffset : Nat
  size : Nat
deriving DecidableEq, Repr

/-- Modelled from the spec: the variant layout calculator of section 4.1
(`computeLayout`), whose implementation (the `cm` package) is absent from
the corpus.  `alignment = max(discriminantAlignment, max(caseAlignments) or 1)`;
`dataOffset = roundUp(discriminantWidth, alignment)`;
`size = roundUp(dataOffset + (max(caseSizes) or 0), alignment)`. -/
def computeLayout (dw da : Nat) (caseSizes caseAligns : List Nat) : Layout :=
  { alignment := Nat.max da (maxOr caseAligns 1)
    dataOffset := roundUp dw (Nat.max da (maxOr caseAligns 1))
    size := roundUp (roundUp dw (Nat.max da (maxOr caseAligns 1)) + maxOr caseSizes 0)
      (Nat.max da (maxOr caseAligns 1)) }

/-- A natural number is a power of two. -/
def isPow2 (n : Nat) : Prop := ∃ k, n = 2 ^ k

/-- Rounding up to a positive alignment never decreases the value. -/
theorem le_roundUp (x a : Nat) (ha : 1 ≤ a) : x ≤ roundUp x a := by
  unfold roundUp
  have key : ∀ s r : Nat, s + r = x + a - 1 → r < a → x ≤ s := by
    intro s r h1 h2
    omega
  refine key ((x + a - 1) / a * a) ((x + a - 1) % a) ?_ (Nat.mod_lt _ (by omega))
  rw [Nat.mul_comm]
  exact Nat.div_add_mod (x + a - 1) a

/-- The rounded-up value is a multiple of the alignment. -/
theorem dvd_roundUp (x a : Nat) : a ∣ roundUp x a :=
  ⟨(x + a - 1) / a, (Nat.mul_comm _ _)⟩

/-- Every member of a list is bounded by the list maximum. -/
theorem le_listMax {a : Nat} : ∀ {l : List Nat}, a ∈ l → a ≤ listMax l := by
  intro l h
  induction l with
  | nil => cases h
  | cons x xs ih =>
    rcases List.mem_cons.mp h with h | h
    · subst h; exact Nat.le_max_left _ _
    · exact Nat.le_trans (ih h) (Nat.le_max_right _ _)

/-- The list maximum is bounded by any common upper bound. -/
theorem listMax_le {b : Nat} : ∀ {l : List Nat}, (∀ a ∈ l, a ≤ b) → listMax l ≤ b := by
  intro l h
  induction l with
  | nil => exact Nat.zero_le _
  | cons x xs ih =>
    refine Nat.max_le.mpr ⟨h x (List.mem_cons_self _ _), ih ?_⟩
    intro a ha
    exact h a (List.mem_cons_of_mem _ ha)

/-- The maximum of two powers of two is a power of two. -/
theorem isPow2_max {a b : Nat} (ha : isPow2 a) (hb : isPow2 b) : isPow2 (Nat.max a b) := by
  rcases Nat.le_total a b with h | h
  · have hm : Nat.max a b = b := Nat.max_eq_right h
    rwa [hm]
  · have hm : Nat.max a b = a := Nat.max_eq_left h
    rwa [hm]

/-- A power of two is positive. -/
theorem isPow2_pos {a : Nat} (ha : isPow2 a) : 1 ≤ a := by
  obtain ⟨k, rfl⟩ := ha
  exact Nat.one_le_two_pow

/-- The maximum of a nonempty list of powers of two is a power of two. -/
theorem isPow2_listMax : ∀ {l : List Nat}, l ≠ [] → (∀ a ∈ l, isPow2 a) →
    isPow2 (listMax l) := by
  intro l
  induction l with
  | nil => intro h; exact absurd rfl h
  | cons x xs ih =>
    intro _ h
    cases xs with
    | nil =>
      simpa [listMax] using h x (List.mem_cons_self _ _)
    | cons y ys =>
      refine isPow2_max (h x (List.mem_cons_self _ _)) (ih (by simp) ?_)
      intro a ha
      exact h a (List.mem_cons_of_mem _ ha)

/-- The `maxOr _ 1` of a list of powers of two is a power of two. -/
theorem isPow2_maxOr {l : List Nat} (h : ∀ a ∈ l, isPow2 a) : isPow2 (maxOr l 1) := by
  cases l with
  | nil => exact ⟨0, rfl⟩
  | cons x xs => exact isPow2_listMax (by simp) h

/-- A type descriptor: size and alignment in bytes (spec section 3).
Descriptors model the compile-time shapes the Go generics resolve. -/
structure TypeDesc where
  size : Nat
  align : Nat
deriving DecidableEq, Repr

/-- Go `bool` on the 64-bit target of the visible test file. -/
def goBool : TypeDesc := ⟨1, 1⟩

/-- Go `uint8`. -/
def goUInt8 : TypeDesc := ⟨1, 1⟩

/-- Go `uint16`. -/
def goUInt16 : TypeDesc := ⟨2, 2⟩

/-- Go `uint32`. -/
def goUInt32 : TypeDesc := ⟨4, 4⟩

/-- Go `uint64`. -/
def goUInt64 : TypeDesc := ⟨8, 8⟩

/-- Go `string` on a 64-bit target: a pointer-and-length header, 16 bytes,
pointer-aligned. -/
def goString : TypeDesc := ⟨16, 8⟩

/-- Go `[9]byte`, the oversized fixed-array payload of the test matrix. -/
def goArray9U8 : TypeDesc := ⟨9, 1⟩

/-- Go `struct{}`: the empty payload. -/
def goUnit : TypeDesc := ⟨0, 1⟩

/-- Native pointer width of the 64-bit target the visible test file pins
(`ptrSize := unsafe.Sizeof(uintptr(0))`, "8 on 64-bit"). -/
def ptrSize : Nat := 8

/-- A variant type: discriminant width and alignment plus the ordered list
of declared case type descriptors. -/
structure VariantType where
  discWidth : Nat
  discAlign : Nat
  cases : List TypeDesc
deriving DecidableEq, Repr

/-- The layout of a variant type, via the layout calculator. -/
def layoutOf (vt : VariantType) : Layout :=
  computeLayout vt.discWidth vt.discAlign (vt.cases.map TypeDesc.size)
    (vt.cases.map TypeDesc.align)

/-- The fault taxonomy of spec section 7. -/
inductive Fault where
  | outOfRange
  | typeMismatch
deriving DecidableEq, Repr

/-- Little-endian encoding of a discriminant into a fixed number of bytes. -/
def encodeLE : Nat → Nat → List Nat
  | 0, _ => []
  | w + 1, n => n % 256 :: encodeLE w (n / 256)

/-- Little-endian decoding of a byte sequence. -/
def decodeLE : List Nat → Nat
  | [] => 0
  | b :: bs => b + 256 * decodeLE bs

/-- Modelled from the spec: the buffer of a variant value (section 3): the
discriminant occupies the first `discWidth` bytes, the payload sits at
`dataOffset`, and slack bytes are unspecified (modelled as zero).  The `cm`
package source is absent from the corpus. -/
def mkBuf (vt : VariantType) (t : Nat) (p : List Nat) : List Nat :=
  encodeLE vt.discWidth t
    ++ List.replicate ((layoutOf vt).dataOffset - vt.discWidth) 0
    ++ p
    ++ List.replicate ((layoutOf vt).size - (layoutOf vt).dataOffset - p.length) 0

/-- Modelled from the spec: `newVariant(tag, value)` of section 4.2, with
the Bounds-Check Policy flag `bc` of section 4.3 (the `cm` package source
is absent from the corpus).  Under the policy the payload's type must match
the case type registered for the tag; a violation is a fault, returned here
as `Except.error` standing for the Go panic. -/
def NewVariant (bc : Bool) (vt : VariantType) (t : Nat) (ty : TypeDesc)
    (p : List Nat) : Except Fault (List Nat) :=
  if bc then
    match vt.cases[t]? with
    | none => .error .outOfRange
    | some cty => if ty = cty then .ok (mkBuf vt t p) else .error .typeMismatch
  else .ok (mkBuf vt t p)

/-- Modelled from the spec: `getCase(value, tag)` of section 4.2 (named
`Case` in the visible test file; the `cm` package source is absent from the
corpus).  Under the Bounds-Check Policy the tag must be in range and the
requested type must equal the registered case type; the payload is the
byte range starting at the layout's data offset. -/
def Case (bc : Bool) (vt : VariantType) (buf : List Nat) (t : Nat)
    (ty : TypeDesc) : Except Fault (List Nat) :=
  if bc then
    match vt.cases[t]? with
    | none => .error .outOfRange
    | some cty =>
      if ty = cty then .ok ((buf.drop (layoutOf vt).dataOffset).take ty.size)
      else .error .typeMismatch
  else .ok ((buf.drop (layoutOf vt).dataOffset).take ty.size)

/-- Modelled from the spec: `tagOf(value)` of section 4.2: reads the stored
discriminant from the first `discWidth` bytes; total, never faults. -/
def tagOf (vt : VariantType) (buf : List Nat) : Nat :=
  decodeLE (buf.take vt.discWidth)

/-- The observable shared state of the container layer: the process-wide
Bounds-Check Policy flag and the variant value's buffer. -/
structure CMState where
  boundsCheck : Bool
  buf : List Nat
deriving DecidableEq, Repr

/-- State-passing form of `Case`: the extraction as it acts on the shared
state, returning its result together with the state it leaves behind. -/
def CaseS (vt : VariantType) (t : Nat) (ty : TypeDesc) (s : CMState) :
    Except Fault (List Nat) × CMState :=
  if s.boundsCheck then
    match vt.cases[t]? with
    | none => (.error .outOfRange, s)
    | some cty =>
      if ty = cty then
        (.ok ((s.buf.drop (layoutOf vt).dataOffset).take ty.size), s)
      else (.error .typeMismatch, s)
  else (.ok ((s.buf.drop (layoutOf vt).dataOffset).take ty.size), s)

/-- State-passing form of `tagOf`. -/
def tagOfS (vt : VariantType) (s : CMState) : Nat × CMState :=
  (decodeLE (s.buf.take vt.discWidth), s)

/-- The cutset of `strings.Trim(line, " \t\r\n")` in the source `unwrap`. -/
def cutset : List Char := [' ', '\t', '\r', '\n']

/-- Go `strings.Trim(s, " \t\r\n")`: strip any leading and trailing cutset
characters. -/
def trimGo (l : List Char) : List Char :=
  ((l.dropWhile (fun c => c ∈ cutset)).reverse.dropWhile (fun c => c ∈ cutset)).reverse

/-- Go `strings.Split(s, "\n")`: the lines of `s`, where the empty string
splits to one empty line. -/
def splitNl : List Char → List (List Char)
  | [] => [[]]
  | c :: cs =>
    if c = '\n' then [] :: splitNl cs
    else
      match splitNl cs with
      | [] => [[c]]
      | l :: ls => (c :: l) :: ls

/-- The builder loop of the source `unwrap`: writes each trimmed line into
the accumulator, preceded by a space for every index after the first. -/
def writeLines : List (List Char) → Nat → List Char → List Char
  | [], _, acc => acc
  | l :: ls, i, acc => writeLines ls (i + 1) (acc ++ (if 0 < i then [' '] else []) ++ trimGo l)

/-- Embedding of the source `unwrap` (wit/wit.go): return `s` unchanged when
`len(s) > 50` or it has more than 5 newlines, else run the builder loop over
the split lines. -/
def unwrap (s : List Char) : List Char :=
  if 50 < s.length ∨ 5 < s.count '\n' then s
  else writeLines (splitNl s) 0 []

/-- Lines joined by single spaces: head as is, every later line preceded by
one space. -/
def joinSpace : List (List Char) → List Char
  | [] => []
  | l :: ls => l ++ (ls.map (fun x => ' ' :: x)).flatten

/-- The claim's description of `unwrap`: the identity on long or many-line
strings, otherwise the trimmed lines joined by single spaces. -/
def unwrapSpec (s : List Char) : List Char :=
  if 50 < s.length ∨ 5 < s.count '\n' then s
  else joinSpace ((splitNl s).map trimGo)

/-- An encoded discriminant occupies exactly the requested width. -/
theorem encodeLE_length : ∀ (w n : Nat), (encodeLE w n).length = w := by
  intro w
  induction w with
  | zero => intro n; rfl
  | succ w ih => intro n; simp [encodeLE, ih]

/-- Decoding inverts encoding, modulo the representable range. -/
theorem decodeLE_encodeLE : ∀ (w n : Nat), decodeLE (encodeLE w n) = n % 256 ^ w := by
  intro w
  induction w with
  | zero => intro n; simp [encodeLE, decodeLE, Nat.mod_one]
  | succ w ih =>
    intro n
    have hpow : (256 : Nat) ^ (w + 1) = 256 * 256 ^ w := by
      rw [Nat.pow_succ, Nat.mul_comm]
    rw [encodeLE, decodeLE, ih, hpow, Nat.mod_mul]

/-- The layout alignment of a variant type is positive whenever its
discriminant alignment is. -/
theorem layoutOf_align_pos (vt : VariantType) (hda : 1 ≤ vt.discAlign) :
    1 ≤ (layoutOf vt).alignment :=
  Nat.le_trans hda (Nat.le_max_left _ _)

/-- The discriminant fits below the data offset. -/
theorem discWidth_le_dataOffset (vt : VariantType) (hda : 1 ≤ vt.discAlign) :
    vt.discWidth ≤ (layoutOf vt).dataOffset :=
  le_roundUp _ _ (layoutOf_align_pos vt hda)

/-- Reading the payload range of a freshly built buffer returns the payload. -/
theorem mkBuf_extract (vt : VariantType) (t : Nat) (ty : TypeDesc) (p : List Nat)
    (hda : 1 ≤ vt.discAlign) (hp : p.length = ty.size) :
    (((mkBuf vt t p).drop (layoutOf vt).dataOffset).take ty.size) = p := by
  have hoff := discWidth_le_dataOffset vt hda
  rw [mkBuf, List.append_assoc]
  rw [List.drop_left' (by
    rw [List.length_append, encodeLE_length, List.length_replicate]
    omega)]
  exact List.take_left' hp

/-- C1: for every discriminant width `d >= 1` and every equal-length (possibly
empty) pair of sequences `caseSizes`, `caseAlignments`, the layout calculator
returns `alignment = max(discriminantAlignment, max(caseAlignments) or 1)`,
`dataOffset = roundUp(d, alignment)` and
`size = roundUp(dataOffset + (max(caseSizes) or 0), alignment)`, with
`roundUp(x, a) = ((x + a - 1) / a) * a`. -/
theorem computeLayout_algorithm (dw da : Nat) (sizes aligns : List Nat)
    (hdw : 1 ≤ dw) (hlen : sizes.length = aligns.length) :
    (computeLayout dw da sizes aligns).alignment = Nat.max da (maxOr aligns 1) ∧
    (computeLayout dw da sizes aligns).dataOffset =
      ((dw + (computeLayout dw da sizes aligns).alignment - 1) /
        (computeLayout dw da sizes aligns).alignment) *
        (computeLayout dw da sizes aligns).alignment ∧
    (computeLayout dw da sizes aligns).size =
      (((computeLayout dw da sizes aligns).dataOffset + maxOr sizes 0 +
          (computeLayout dw da sizes aligns).alignment - 1) /
        (computeLayout dw da sizes aligns).alignment) *
        (computeLayout dw da sizes aligns).alignment :=
  ⟨rfl, rfl, rfl⟩

/-- Witness for C1 at a concrete input: the string-or-bool variant of the
visible test matrix. -/
theorem computeLayout_algorithm_witness :
    (computeLayout 1 1 [16, 1] [8, 1]).alignment = Nat.max 1 (maxOr [8, 1] 1) ∧
    (computeLayout 1 1 [16, 1] [8, 1]).dataOffset =
      ((1 + (computeLayout 1 1 [16, 1] [8, 1]).alignment - 1) /
        (computeLayout 1 1 [16, 1] [8, 1]).alignment) *
        (computeLayout 1 1 [16, 1] [8, 1]).alignment ∧
    (computeLayout 1 1 [16, 1] [8, 1]).size =
      (((computeLayout 1 1 [16, 1] [8, 1]).dataOffset + maxOr [16, 1] 0 +
          (computeLayout 1 1 [16, 1] [8, 1]).alignment - 1) /
        (computeLayout 1 1 [16, 1] [8, 1]).alignment) *
        (computeLayout 1 1 [16, 1] [8, 1]).alignment :=
  computeLayout_algorithm 1 1 [16, 1] [8, 1] (by decide) (by decide)

/-- C2: for every discriminant width `d >= 1` and every case-type set (the
discriminant and case alignments are type alignments, hence powers of two),
the computed alignment is a power of two, the data offset is a multiple of
the alignment and at least `d`, and the size is a multiple of the alignment
and at least the data offset. -/
theorem computeLayout_invariants (dw da : Nat) (sizes aligns : List Nat)
    (hdw : 1 ≤ dw) (hda : isPow2 da) (hal : ∀ a ∈ aligns, isPow2 a) :
    isPow2 (computeLayout dw da sizes aligns).alignment ∧
    ((computeLayout dw da sizes aligns).alignment ∣
        (computeLayout dw da sizes aligns).dataOffset ∧
      dw ≤ (computeLayout dw da sizes aligns).dataOffset) ∧
    ((computeLayout dw da sizes aligns).alignment ∣
        (computeLayout dw da sizes aligns).size ∧
      (computeLayout dw da sizes aligns).dataOffset ≤
        (computeLayout dw da sizes aligns).size) := by
  have hA : isPow2 (Nat.max da (maxOr aligns 1)) := isPow2_max hda (isPow2_maxOr hal)
  have hApos : 1 ≤ Nat.max da (maxOr aligns 1) := isPow2_pos hA
  refine ⟨hA, ⟨dvd_roundUp _ _, le_roundUp _ _ hApos⟩, ⟨dvd_roundUp _ _, ?_⟩⟩
  exact Nat.le_trans (Nat.le_add_right _ _) (le_roundUp _ _ hApos)

/-- Witness for C2 at a concrete input: a string-or-bool case set. -/
theorem computeLayout_invariants_witness :
    isPow2 (computeLayout 1 1 [16, 1] [8, 1]).alignment ∧
    ((computeLayout 1 1 [16, 1] [8, 1]).alignment ∣
        (computeLayout 1 1 [16, 1] [8, 1]).dataOffset ∧
      1 ≤ (computeLayout 1 1 [16, 1] [8, 1]).dataOffset) ∧
    ((computeLayout 1 1 [16, 1] [8, 1]).alignment ∣
        (computeLayout 1 1 [16, 1] [8, 1]).size ∧
      (computeLayout 1 1 [16, 1] [8, 1]).dataOffset ≤
        (computeLayout 1 1 [16, 1] [8, 1]).size) :=
  computeLayout_invariants 1 1 [16, 1] [8, 1] (by decide) ⟨0, rfl⟩ (by
    intro a ha
    simp only [List.mem_cons, List.not_mem_nil, or_false] at ha
    rcases ha with rfl | rfl
    · exact ⟨3, rfl⟩
    · exact ⟨0, rfl⟩)

/-- C5: a variant mixing the 9-byte fixed array `[9]byte` and the 8-byte
`uint64` has size 24 and alignment 8: the max-size rule rounds 8 + 9 = 17 up
to the next multiple of 8 rather than summing the cases. -/
theorem layout_array9_u64 :
    (layoutOf ⟨1, 1, [goArray9U8, goUInt64]⟩).size = 24 ∧
    (layoutOf ⟨1, 1, [goArray9U8, goUInt64]⟩).alignment = 8 := by
  decide

/-- C6: whenever the case set contains a reference-like (pointer-width
aligned) payload and no case exceeds pointer alignment, the data offset is
exactly the native pointer width, whatever the case byte counts are. -/
theorem layout_reference_dataOffset (dw da : Nat) (sizes aligns : List Nat)
    (hdw1 : 1 ≤ dw) (hdw8 : dw ≤ ptrSize) (hda : da ≤ ptrSize)
    (hmem : ptrSize ∈ aligns) (hub : ∀ a ∈ aligns, a ≤ ptrSize) :
    (computeLayout dw da sizes aligns).dataOffset = ptrSize := by
  have hmax : maxOr aligns 1 = ptrSize := by
    cases aligns with
    | nil => cases hmem
    | cons x xs =>
      have hm : maxOr (x :: xs) 1 = listMax (x :: xs) := rfl
      rw [hm]
      exact Nat.le_antisymm (listMax_le hub) (le_listMax hmem)
  have hA : Nat.max da (maxOr aligns 1) = ptrSize := by
    rw [hmax]
    exact Nat.max_eq_right hda
  show roundUp dw (Nat.max da (maxOr aligns 1)) = ptrSize
  rw [hA]
  unfold ptrSize at hdw8 ⊢
  unfold roundUp
  omega

/-- Witness for C6 at a concrete input: the string-or-bool variant. -/
theorem layout_reference_dataOffset_witness :
    (computeLayout 1 1 [16, 1] [8, 1]).dataOffset = ptrSize :=
  layout_reference_dataOffset 1 1 [16, 1] [8, 1] (by decide) (by decide)
    (by decide) (by decide) (by decide)

/-- C7: a variant with two equal-size, equal-alignment 8-byte (`uint64`)
cases has size 16 and data offset equal to the alignment of the 8-byte
type. -/
theorem layout_two_u64 (dw da : Nat) (hdw1 : 1 ≤ dw) (hdw8 : dw ≤ 8)
    (hda : da ≤ 8) :
    (computeLayout dw da [goUInt64.size, goUInt64.size]
        [goUInt64.align, goUInt64.align]).size = 16 ∧
    (computeLayout dw da [goUInt64.size, goUInt64.size]
        [goUInt64.align, goUInt64.align]).dataOffset = goUInt64.align := by
  have hm1 : maxOr [goUInt64.align, goUInt64.align] 1 = 8 := by decide
  have hm0 : maxOr [goUInt64.size, goUInt64.size] 0 = 8 := by decide
  have hA : Nat.max da (maxOr [goUInt64.align, goUInt64.align] 1) = 8 := by
    rw [hm1]
    exact Nat.max_eq_right hda
  have hoff : roundUp dw 8 = 8 := by
    unfold roundUp
    omega
  constructor
  · show roundUp (roundUp dw (Nat.max da (maxOr [goUInt64.align, goUInt64.align] 1)) +
        maxOr [goUInt64.size, goUInt64.size] 0)
      (Nat.max da (maxOr [goUInt64.align, goUInt64.align] 1)) = 16
    rw [hA, hm0, hoff]
    decide
  · show roundUp dw (Nat.max da (maxOr [goUInt64.align, goUInt64.align] 1)) = goUInt64.align
    rw [hA]
    exact hoff

/-- Witness for C7 at the test matrix instance (bool discriminant). -/
theorem layout_two_u64_witness :
    (computeLayout 1 1 [goUInt64.size, goUInt64.size]
        [goUInt64.align, goUInt64.align]).size = 16 ∧
    (computeLayout 1 1 [goUInt64.size, goUInt64.size]
        [goUInt64.align, goUInt64.align]).dataOffset = goUInt64.align :=
  layout_two_u64 1 1 (by decide) (by decide) (by decide)

/-- The modelled layout calculator reproduces every row of the visible
`TestVariantLayout` matrix (64-bit target: `sizePlusAlignOf[string]` is 24,
`ptrSize` is 8, `alignOf[uint64]` is 8, `alignOf[uint32]` is 4). -/
theorem computeLayout_matches_test_matrix :
    ((layoutOf ⟨1, 1, [goString, goString]⟩).size = 24 ∧
      (layoutOf ⟨1, 1, [goString, goString]⟩).dataOffset = 8) ∧
    ((layoutOf ⟨1, 1, [goString, goBool]⟩).size = 24 ∧
      (layoutOf ⟨1, 1, [goString, goBool]⟩).dataOffset = 8) ∧
    ((layoutOf ⟨1, 1, [goString, goUnit]⟩).size = 24 ∧
      (layoutOf ⟨1, 1, [goString, goUnit]⟩).dataOffset = 8) ∧
    ((layoutOf ⟨1, 1, [goUInt64, goUInt64]⟩).size = 16 ∧
      (layoutOf ⟨1, 1, [goUInt64, goUInt64]⟩).dataOffset = 8) ∧
    ((layoutOf ⟨1, 1, [goUInt64, goUInt32]⟩).size = 16 ∧
      (layoutOf ⟨1, 1, [goUInt64, goUInt32]⟩).dataOffset = 8) ∧
    ((layoutOf ⟨1, 1, [goUInt64, goUInt8]⟩).size = 16 ∧
      (layoutOf ⟨1, 1, [goUInt64, goUInt8]⟩).dataOffset = 8) ∧
    ((layoutOf ⟨1, 1, [goUInt32, goUInt8]⟩).size = 8 ∧
      (layoutOf ⟨1, 1, [goUInt32, goUInt8]⟩).dataOffset = 4) ∧
    ((layoutOf ⟨1, 1, [goArray9U8, goUInt64]⟩).size = 24 ∧
      (layoutOf ⟨1, 1, [goArray9U8, goUInt64]⟩).dataOffset = 8) := by
  decide

/-- A representative variant type covering one payload per primitive width
(1, 2, 4, 8, 16 bytes) and the fixed-array case, used as a concrete
instance. -/
def vtRep : VariantType :=
  ⟨1, 1, [goUInt8, goUInt16, goUInt32, goUInt64, goString, goArray9U8]⟩

/-- The two-case `uint8` variant of the visible bounds-check tests. -/
def vtU8 : VariantType := ⟨1, 1, [goUInt8, goUInt8]⟩

/-- C3: for every declared case tag `t` and every payload `p` of the case
type registered for `t`, constructing via `NewVariant(t, p)` succeeds and
extracting via `Case` with the same tag returns a payload equal to `p`,
under either bounds-check mode. -/
theorem newVariant_case_roundtrip (bc : Bool) (vt : VariantType) (t : Nat)
    (ty : TypeDesc) (p : List Nat) (hda : 1 ≤ vt.discAlign)
    (hreg : vt.cases[t]? = some ty) (hp : p.length = ty.size) :
    NewVariant bc vt t ty p = Except.ok (mkBuf vt t p) ∧
    Case bc vt (mkBuf vt t p) t ty = Except.ok p := by
  constructor
  · cases bc with
    | false => rfl
    | true => simp [NewVariant, hreg]
  · cases bc with
    | false =>
      show Except.ok (((mkBuf vt t p).drop (layoutOf vt).dataOffset).take ty.size) =
        Except.ok p
      rw [mkBuf_extract vt t ty p hda hp]
    | true =>
      simp [Case, hreg, mkBuf_extract vt t ty p hda hp]

/-- Witness for C3: round trips through the representative variant at one
case per primitive width (1, 2, 4, 8, 16 bytes) and the array case, with
bounds checking on. -/
theorem newVariant_case_roundtrip_witness :
    (NewVariant true vtRep 0 goUInt8 [3] = Except.ok (mkBuf vtRep 0 [3]) ∧
      Case true vtRep (mkBuf vtRep 0 [3]) 0 goUInt8 = Except.ok [3]) ∧
    (NewVariant true vtRep 1 goUInt16 [1, 2] = Except.ok (mkBuf vtRep 1 [1, 2]) ∧
      Case true vtRep (mkBuf vtRep 1 [1, 2]) 1 goUInt16 = Except.ok [1, 2]) ∧
    (NewVariant true vtRep 2 goUInt32 [1, 2, 3, 4] =
        Except.ok (mkBuf vtRep 2 [1, 2, 3, 4]) ∧
      Case true vtRep (mkBuf vtRep 2 [1, 2, 3, 4]) 2 goUInt32 =
        Except.ok [1, 2, 3, 4]) ∧
    (NewVariant true vtRep 3 goUInt64 (List.replicate 8 5) =
        Except.ok (mkBuf vtRep 3 (List.replicate 8 5)) ∧
      Case true vtRep (mkBuf vtRep 3 (List.replicate 8 5)) 3 goUInt64 =
        Except.ok (List.replicate 8 5)) ∧
    (NewVariant true vtRep 4 goString (List.replicate 16 7) =
        Except.ok (mkBuf vtRep 4 (List.replicate 16 7)) ∧
      Case true vtRep (mkBuf vtRep 4 (List.replicate 16 7)) 4 goString =
        Except.ok (List.replicate 16 7)) ∧
    (NewVariant true vtRep 5 goArray9U8 (List.replicate 9 9) =
        Except.ok (mkBuf vtRep 5 (List.replicate 9 9)) ∧
      Case true vtRep (mkBuf vtRep 5 (List.replicate 9 9)) 5 goArray9U8 =
        Except.ok (List.replicate 9 9)) :=
  ⟨newVariant_case_roundtrip true vtRep 0 goUInt8 [3] (by decide) (by decide)
      (by decide),
    newVariant_case_roundtrip true vtRep 1 goUInt16 [1, 2] (by decide)
      (by decide) (by decide),
    newVariant_case_roundtrip true vtRep 2 goUInt32 [1, 2, 3, 4] (by decide)
      (by decide) (by decide),
    newVariant_case_roundtrip true vtRep 3 goUInt64 (List.replicate 8 5)
      (by decide) (by decide) (by decide),
    newVariant_case_roundtrip true vtRep 4 goString (List.replicate 16 7)
      (by decide) (by decide) (by decide),
    newVariant_case_roundtrip true vtRep 5 goArray9U8 (List.replicate 9 9)
      (by decide) (by decide) (by decide)⟩

/-- C4: with the Bounds-Check Policy enabled, extraction with a tag outside
the declared case range faults with `OutOfRange`; extraction or
construction with a type that differs from the case type registered for a
valid tag faults with `TypeMismatch`.  A fault is an `Except.error`, never a
normal `Except.ok` return. -/
theorem boundsCheck_faults (vt : VariantType) (buf p : List Nat) (t : Nat)
    (ty : TypeDesc) :
    (vt.cases.length ≤ t →
      Case true vt buf t ty = Except.error Fault.outOfRange) ∧
    (∀ cty, vt.cases[t]? = some cty → ty ≠ cty →
      Case true vt buf t ty = Except.error Fault.typeMismatch) ∧
    (∀ cty, vt.cases[t]? = some cty → ty ≠ cty →
      NewVariant true vt t ty p = Except.error Fault.typeMismatch) := by
  refine ⟨?_, ?_, ?_⟩
  · intro h
    have hn : vt.cases[t]? = none := List.getElem?_eq_none h
    simp [Case, hn]
  · intro cty hc hne
    simp [Case, hc, hne]
  · intro cty hc hne
    simp [NewVariant, hc, hne]

/-- Witness for C4, mirroring `TestGetBoundsCheck` and
`TestNewVariantBoundsCheck`: a `uint8` variant read with a `string` type at
a valid tag, read at an out-of-range tag, and constructed with a `string`
payload. -/
theorem boundsCheck_faults_witness :
    Case true vtU8 (mkBuf vtU8 0 [0]) 5 goString = Except.error Fault.outOfRange ∧
    Case true vtU8 (mkBuf vtU8 0 [0]) 0 goString = Except.error Fault.typeMismatch ∧
    NewVariant true vtU8 0 goString (List.replicate 16 7) =
      Except.error Fault.typeMismatch :=
  ⟨(boundsCheck_faults vtU8 (mkBuf vtU8 0 [0]) (List.replicate 16 7) 5
        goString).1 (by decide),
    (boundsCheck_faults vtU8 (mkBuf vtU8 0 [0]) (List.replicate 16 7) 0
        goString).2.1 goUInt8 (by decide) (by decide),
    (boundsCheck_faults vtU8 (mkBuf vtU8 0 [0]) (List.replicate 16 7) 0
        goString).2.2 goUInt8 (by decide) (by decide)⟩

/-- C8: `tagOf` is total and returns the discriminant stored at
construction, and reading it again from the unmodified value gives the same
discriminant (in this pure embedding a repeated read is the same
application, so the repetition conjunct is definitional). -/
theorem tagOf_stored (vt : VariantType) (t : Nat) (p : List Nat)
    (ht : t < 256 ^ vt.discWidth) :
    tagOf vt (mkBuf vt t p) = t ∧
    tagOf vt (mkBuf vt t p) = tagOf vt (mkBuf vt t p) := by
  constructor
  · rw [tagOf, mkBuf, List.append_assoc, List.append_assoc]
    rw [List.take_left' (encodeLE_length _ _)]
    rw [decodeLE_encodeLE]
    exact Nat.mod_eq_of_lt ht
  · rfl

/-- Witness for C8 at a concrete construction. -/
theorem tagOf_stored_witness :
    tagOf vtRep (mkBuf vtRep 3 (List.replicate 8 5)) = 3 ∧
    tagOf vtRep (mkBuf vtRep 3 (List.replicate 8 5)) =
      tagOf vtRep (mkBuf vtRep 3 (List.replicate 8 5)) :=
  tagOf_stored vtRep 3 (List.replicate 8 5) (by decide)

/-- C9: extraction and tag reads have no side effect beyond their returned
value: in state-passing form both leave the shared state (the buffer and
the process-wide bounds-check flag) exactly as it was, and their results
are those of the pure operations on that unchanged state. -/
theorem case_tagOf_frame (vt : VariantType) (t : Nat) (ty : TypeDesc)
    (s : CMState) :
    (CaseS vt t ty s).2 = s ∧ (tagOfS vt s).2 = s ∧
    (CaseS vt t ty s).1 = Case s.boundsCheck vt s.buf t ty ∧
    (tagOfS vt s).1 = tagOf vt s.buf := by
  refine ⟨?_, rfl, ?_, rfl⟩
  · unfold CaseS
    cases s.boundsCheck with
    | false => rfl
    | true =>
      cases hc : vt.cases[t]? with
      | none => rfl
      | some cty =>
        by_cases hty : ty = cty
        · simp [hty]
        · simp [hty]
  · unfold CaseS Case
    cases s.boundsCheck with
    | false => rfl
    | true =>
      cases hc : vt.cases[t]? with
      | none => rfl
      | some cty =>
        by_cases hty : ty = cty
        · simp [hty]
        · simp [hty]

/-- The builder loop, started at any positive index, writes a space before
every line: it appends the flattened space-prefixed trimmed lines. -/
theorem writeLines_shift : ∀ (ls : List (List Char)) (acc : List Char) (i : Nat),
    writeLines ls (i + 1) acc =
      acc ++ (ls.map (fun l => ' ' :: trimGo l)).flatten := by
  intro ls
  induction ls with
  | nil => intro acc i; simp [writeLines]
  | cons l ls ih =>
    intro acc i
    rw [writeLines, ih]
    have hpos : 0 < i + 1 := Nat.succ_pos i
    rw [if_pos hpos]
    simp [List.append_assoc]

/-- C10: the source `unwrap` returns its input unchanged when its length
exceeds 50 or it has more than 5 newlines, and otherwise returns its lines,
each stripped of leading and trailing spaces, tabs, carriage returns and
newlines, joined by single spaces. -/
theorem unwrap_spec_equiv : ∀ s : List Char, unwrap s = unwrapSpec s := by
  intro s
  unfold unwrap unwrapSpec
  by_cases h : 50 < s.length ∨ 5 < s.count '\n'
  · rw [if_pos h, if_pos h]
  · rw [if_neg h, if_neg h]
    generalize splitNl s = ls
    cases ls with
    | nil => rfl
    | cons l ls =>
      rw [writeLines, writeLines_shift]
      have hneg : ¬ 0 < 0 := by omega
      rw [if_neg hneg]
      rw [List.map_cons]
      simp only [joinSpace, List.map_map, List.nil_append]
      rfl
